import Mathlib

/-!
# Verification of the API performance bottleneck analyzer

Shallow embedding of `log_analyzer.py` (class `LogAnalyzer`): log records are
structures with optional fields (a `none` field models a key missing from the
Python dict, read through `dict.get` with its default); numeric values are
modelled exactly by `ℚ` (Python floats idealised as reals, as the spec does);
grouping by endpoint is an insertion-ordered association list, mirroring the
iteration order of Python's `defaultdict`; Python's stable `list.sort` with
`reverse=True` is modelled by Mathlib's stable `List.insertionSort` with a
greater-or-equal-on-key relation, which places an element before the first
element of no larger key, exactly the unique stable descending order.
-/

namespace APIPBA

/-- One input log entry. A `none` field models a dict with the key absent,
so that `log.get(field, default)` in the source returns the default. -/
structure LogRecord where
  endpoint : Option String
  response_time_ms : Option ℚ
  status_code : Option ℤ
  db_query_count : Option ℚ
deriving Repr, DecidableEq

/-- `log.get("endpoint", "unknown")`. -/
def LogRecord.key (r : LogRecord) : String := r.endpoint.getD "unknown"

/-- `log.get("response_time_ms", 0)`. -/
def LogRecord.rt (r : LogRecord) : ℚ := r.response_time_ms.getD 0

/-- `log.get("status_code", 200)`. -/
def LogRecord.status (r : LogRecord) : ℤ := r.status_code.getD 200

/-- `log.get("db_query_count", 0)`. -/
def LogRecord.db (r : LogRecord) : ℚ := r.db_query_count.getD 0

/-- The per-endpoint accumulator created by the `defaultdict` in
`analyze_logs`: count, running sum of response times, error count, running
sum of db query counts, and the ordered list of observed response times. -/
structure Stats where
  count : ℕ
  total_response_time : ℚ
  errors : ℕ
  db_queries : ℚ
  response_times : List ℚ
deriving Repr, DecidableEq

/-- The `defaultdict` default value for a fresh endpoint key. -/
def Stats.empty : Stats :=
  { count := 0, total_response_time := 0, errors := 0, db_queries := 0,
    response_times := [] }

/-- The loop body of the grouping loop in `analyze_logs` (lines 35-48):
updates one endpoint's accumulator with one record, applying the
`dict.get` defaults. -/
def addLog (r : LogRecord) (s : Stats) : Stats :=
  { count := s.count + 1
    total_response_time := s.total_response_time + r.rt
    errors := s.errors + (if 400 ≤ r.status then 1 else 0)
    db_queries := s.db_queries + r.db
    response_times := s.response_times ++ [r.rt] }

/-- Update an insertion-ordered association list at key `k` with record `r`,
creating the entry at the end if the key is fresh — the behaviour of
`endpoint_stats[endpoint]` on a `defaultdict`. -/
def upsert (k : String) (r : LogRecord) : List (String × Stats) → List (String × Stats)
  | [] => [(k, addLog r Stats.empty)]
  | (k', s) :: rest =>
      if k' = k then (k', addLog r s) :: rest else (k', s) :: upsert k r rest

/-- The grouping loop: fold the records left-to-right into the accumulator
map, keyed by `LogRecord.key`. The resulting list is in first-seen key
order, as a Python dict iterates. -/
def groupLogs (logs : List LogRecord) : List (String × Stats) :=
  logs.foldl (fun acc r => upsert r.key r acc) []

/-- Unrounded `avg_response_time = total_response_time / count` (line 56). -/
def Stats.avg (s : Stats) : ℚ := s.total_response_time / (s.count : ℚ)

/-- Unrounded `error_rate = errors / count` (line 57). -/
def Stats.errorRate (s : Stats) : ℚ := (s.errors : ℚ) / (s.count : ℚ)

/-- Unrounded `avg_db_queries = db_queries / count` (line 58). -/
def Stats.avgDb (s : Stats) : ℚ := s.db_queries / (s.count : ℚ)

/-- `sorted(stats["response_times"])`: stable ascending sort. -/
def sortAsc (l : List ℚ) : List ℚ := l.insertionSort (· ≤ ·)

/-- `p95_index = int(len(sorted_times) * 0.95)`. Exact for every list length
a process can hold: `n * 0.95` in IEEE double has error far below the
minimum distance `0.05` from an integer that the exact value `19n/20` can
have, so the truncation agrees with the exact floor `n * 95 / 100`. -/
def p95Index (n : ℕ) : ℕ := n * 95 / 100

/-- `sorted_times[p95_index] if sorted_times else 0` (line 63). The index is
in bounds whenever the list is non-empty (`p95Index_lt_length` below), so
`getD` returns the selected element, never the fallback `0`. -/
def Stats.p95 (s : Stats) : ℚ :=
  (sortAsc s.response_times).getD (p95Index s.response_times.length) 0

/-- Python's `round` to an integer, idealised to exact round-half-to-even
on rationals (banker's rounding, Python's documented tie rule). -/
def pyRoundInt (x : ℚ) : ℤ :=
  let f := ⌊x⌋
  if x - f < 1/2 then f
  else if 1/2 < x - f then f + 1
  else if f % 2 = 0 then f else f + 1

/-- Python's `round(x, d)` idealised on exact rationals. -/
def roundTo (d : ℕ) (x : ℚ) : ℚ := (pyRoundInt (x * 10 ^ d) : ℚ) / 10 ^ d

/-- The `endpoint_analysis` dict built at lines 65-73: the derived real
values are rounded for presentation — response-time averages, p95 and
db averages to 2 decimal places, the error rate to 3. -/
structure EndpointAnalysis where
  endpoint : String
  total_requests : ℕ
  avg_response_time_ms : ℚ
  p95_response_time_ms : ℚ
  error_rate : ℚ
  avg_db_queries : ℚ
  total_errors : ℕ
deriving Repr, DecidableEq

/-- Build the `endpoint_analysis` record for one endpoint group. -/
def mkAnalysis (ep : String) (s : Stats) : EndpointAnalysis :=
  { endpoint := ep
    total_requests := s.count
    avg_response_time_ms := roundTo 2 s.avg
    p95_response_time_ms := roundTo 2 s.p95
    error_rate := roundTo 3 s.errorRate
    avg_db_queries := roundTo 2 s.avgDb
    total_errors := s.errors }

/-- The analyzer's configuration (constructor defaults 500 and 0.05). -/
structure LogAnalyzer where
  slow_threshold_ms : ℚ := 500
  error_rate_threshold : ℚ := 5 / 100
deriving Repr, DecidableEq

/-- A `LogAnalyzer()` with the default thresholds. -/
def defaultAnalyzer : LogAnalyzer := {}

/-- Stable descending sort by a rational-valued key: the model of Python's
stable `list.sort(key=..., reverse=True)`. An element is inserted before
the first element whose key is no larger, so elements with equal keys keep
their original relative order. -/
def sortDescBy (key : EndpointAnalysis → ℚ) (l : List EndpointAnalysis) :
    List EndpointAnalysis :=
  l.insertionSort (fun a b => key b ≤ key a)

/-- The classification loop's slow list (line 76-77), before sorting:
groups whose unrounded average response time strictly exceeds the
threshold, in group order. -/
def slowQualifying (c : LogAnalyzer) (groups : List (String × Stats)) :
    List EndpointAnalysis :=
  (groups.filter fun g => c.slow_threshold_ms < g.2.avg).map fun g => mkAnalysis g.1 g.2

/-- The high-error list (line 79-80), before sorting. -/
def highErrorQualifying (c : LogAnalyzer) (groups : List (String × Stats)) :
    List EndpointAnalysis :=
  (groups.filter fun g => c.error_rate_threshold < g.2.errorRate).map fun g => mkAnalysis g.1 g.2

/-- The db-heavy list (line 82-83), before sorting; the threshold is the
fixed constant 5. -/
def dbHeavyQualifying (groups : List (String × Stats)) : List EndpointAnalysis :=
  (groups.filter fun g => (5 : ℚ) < g.2.avgDb).map fun g => mkAnalysis g.1 g.2

/-- `slow_endpoints.sort(key=lambda x: x["avg_response_time_ms"], reverse=True)`
(line 86) — the sort key is the ROUNDED field of the analysis dict. -/
def slowSorted (c : LogAnalyzer) (groups : List (String × Stats)) :
    List EndpointAnalysis :=
  sortDescBy (fun e => e.avg_response_time_ms) (slowQualifying c groups)

/-- Line 87: sorted by the rounded `error_rate` field, descending. -/
def highErrorSorted (c : LogAnalyzer) (groups : List (String × Stats)) :
    List EndpointAnalysis :=
  sortDescBy (fun e => e.error_rate) (highErrorQualifying c groups)

/-- Line 88: sorted by the rounded `avg_db_queries` field, descending. -/
def dbHeavySorted (groups : List (String × Stats)) : List EndpointAnalysis :=
  sortDescBy (fun e => e.avg_db_queries) (dbHeavyQualifying groups)

/-- The `summary` sub-dict of the result (lines 96-100): counts taken from
the untruncated category lists. -/
structure AnalysisSummary where
  slow_endpoints_count : ℕ
  high_error_endpoints_count : ℕ
  db_heavy_endpoints_count : ℕ
deriving Repr, DecidableEq

/-- The result dict of `analyze_logs` (lines 90-101); the three category
lists are truncated to their first 5 entries. -/
structure AnalysisResult where
  total_logs_analyzed : ℕ
  unique_endpoints : ℕ
  slow_endpoints : List EndpointAnalysis
  high_error_endpoints : List EndpointAnalysis
  db_heavy_endpoints : List EndpointAnalysis
  summary : AnalysisSummary
deriving Repr, DecidableEq

/-- `LogAnalyzer.analyze_logs`. An empty input returns the error dict
`{"error": "No logs provided"}` (line 23-24), modelled as the `error`
branch of `Except`; every non-empty input produces a result. -/
def LogAnalyzer.analyze_logs (c : LogAnalyzer) (logs : List LogRecord) :
    Except String AnalysisResult :=
  if logs.isEmpty then .error "No logs provided"
  else
    let groups := groupLogs logs
    let slow := slowSorted c groups
    let highError := highErrorSorted c groups
    let dbHeavy := dbHeavySorted groups
    .ok
      { total_logs_analyzed := logs.length
        unique_endpoints := groups.length
        slow_endpoints := slow.take 5
        high_error_endpoints := highError.take 5
        db_heavy_endpoints := dbHeavy.take 5
        summary :=
          { slow_endpoints_count := slow.length
            high_error_endpoints_count := highError.length
            db_heavy_endpoints_count := dbHeavy.length } }

/-- The slow-endpoint issue line of `get_critical_issues` (lines 107-113).
Numeric rendering is the idealised `toString` of the exact rational; the
spec makes the exact wording non-load-bearing. -/
def slowIssueStr (e : EndpointAnalysis) : String :=
  "Slow endpoint: " ++ e.endpoint ++ " - Avg: " ++ toString e.avg_response_time_ms ++
    "ms, P95: " ++ toString e.p95_response_time_ms ++ "ms, DB Queries: " ++
    toString e.avg_db_queries

/-- The high-error issue line (lines 115-120). -/
def highErrorIssueStr (e : EndpointAnalysis) : String :=
  "High error rate: " ++ e.endpoint ++ " - Error rate: " ++
    toString (e.error_rate * 100) ++ "%, Total errors: " ++ toString e.total_errors

/-- The db-heavy issue line (lines 122-126). -/
def dbHeavyIssueStr (e : EndpointAnalysis) : String :=
  "DB-heavy endpoint: " ++ e.endpoint ++ " - Avg " ++ toString e.avg_db_queries ++
    " queries per request"

/-- `LogAnalyzer.get_critical_issues` (lines 103-128): three loops, each
over the first 3 entries of one category list of the analysis, appending
one issue string per entry to `issues`. -/
def LogAnalyzer.get_critical_issues (analysis : AnalysisResult) : List String :=
  let issues : List String := []
  let issues := issues ++ (analysis.slow_endpoints.take 3).map slowIssueStr
  let issues := issues ++ (analysis.high_error_endpoints.take 3).map highErrorIssueStr
  let issues := issues ++ (analysis.db_heavy_endpoints.take 3).map dbHeavyIssueStr
  issues

/-! ## Infrastructure lemmas -/

/-- Computation-friendly form of `pyRoundInt`: the half-comparisons phrased
without subtraction, so `norm_num` can evaluate concrete instances. -/
theorem pyRoundInt_eval (x : ℚ) :
    pyRoundInt x =
      (if 2 * x < 2 * (⌊x⌋ : ℚ) + 1 then ⌊x⌋
       else if 2 * (⌊x⌋ : ℚ) + 1 < 2 * x then ⌊x⌋ + 1
       else if ⌊x⌋ % 2 = 0 then ⌊x⌋ else ⌊x⌋ + 1) := by
  unfold pyRoundInt
  have h1 : (x - (⌊x⌋ : ℚ) < 1/2) ↔ (2 * x < 2 * (⌊x⌋ : ℚ) + 1) := by
    constructor <;> intro h <;> linarith
  have h2 : ((1:ℚ)/2 < x - (⌊x⌋ : ℚ)) ↔ (2 * (⌊x⌋ : ℚ) + 1 < 2 * x) := by
    constructor <;> intro h <;> linarith
  simp only [h1, h2]

/-- The p95 index is strictly below the list length for non-empty lists, so
the source's unguarded `sorted_times[p95_index]` never raises and the
spec's clamp-at-`count` case never fires. -/
theorem p95Index_lt_length {n : ℕ} (h : 1 ≤ n) : p95Index n < n := by
  have h100 : 0 < 100 := by norm_num
  exact Nat.div_lt_of_lt_mul (by omega)

/-- Unfolding `upsert` when the head holds the key. -/
theorem upsert_cons_eq (k : String) (r : LogRecord) (s : Stats)
    (rest : List (String × Stats)) :
    upsert k r ((k, s) :: rest) = (k, addLog r s) :: rest := by
  simp [upsert]

/-- Unfolding `upsert` past a head with a different key. -/
theorem upsert_cons_ne {k k₂ : String} (r : LogRecord) (s : Stats)
    (rest : List (String × Stats)) (h : k₂ ≠ k) :
    upsert k r ((k₂, s) :: rest) = (k₂, s) :: upsert k r rest := by
  simp [upsert, h]

/-- Membership in an upserted association list: either the entry was
already present, or it is the key's entry updated by the new record
(starting from the `defaultdict` default if the key is fresh). -/
theorem mem_upsert (k : String) (r : LogRecord) :
    ∀ (l : List (String × Stats)) (g : String × Stats), g ∈ upsert k r l →
      g ∈ l ∨ ∃ s, g = (k, addLog r s) ∧ ((k, s) ∈ l ∨ s = Stats.empty)
  | [], g, hg => by
      simp only [upsert, List.mem_singleton] at hg
      exact Or.inr ⟨Stats.empty, hg, Or.inr rfl⟩
  | (k₂, s₂) :: rest, g, hg => by
      by_cases hk : k₂ = k
      · subst hk
        rw [upsert_cons_eq, List.mem_cons] at hg
        rcases hg with hg | hg
        · exact Or.inr ⟨s₂, hg, Or.inl (List.mem_cons_self _ _)⟩
        · exact Or.inl (List.mem_cons_of_mem _ hg)
      · rw [upsert_cons_ne r s₂ rest hk, List.mem_cons] at hg
        rcases hg with hg | hg
        · exact Or.inl (by simp [hg])
        · rcases mem_upsert k r rest g hg with hg2 | ⟨s, hs, hmem⟩
          · exact Or.inl (List.mem_cons_of_mem _ hg2)
          · refine Or.inr ⟨s, hs, ?_⟩
            rcases hmem with hmem | hmem
            · exact Or.inl (List.mem_cons_of_mem _ hmem)
            · exact Or.inr hmem

/-- Upserting an existing key leaves the key sequence unchanged. -/
theorem upsert_keys_mem (k : String) (r : LogRecord) :
    ∀ (l : List (String × Stats)), k ∈ l.map Prod.fst →
      (upsert k r l).map Prod.fst = l.map Prod.fst
  | [], h => by simp at h
  | (k₂, s₂) :: rest, h => by
      by_cases hk : k₂ = k
      · subst hk; simp [upsert]
      · have hrest : k ∈ rest.map Prod.fst := by
          simpa [Ne.symm hk] using h
        simp [upsert, hk, upsert_keys_mem k r rest hrest]

/-- Upserting a fresh key appends it at the end of the key sequence, the
`defaultdict` insertion-order behaviour. -/
theorem upsert_keys_not_mem (k : String) (r : LogRecord) :
    ∀ (l : List (String × Stats)), k ∉ l.map Prod.fst →
      (upsert k r l).map Prod.fst = l.map Prod.fst ++ [k]
  | [], _ => by simp [upsert]
  | (k₂, s₂) :: rest, h => by
      have hk : k₂ ≠ k := by
        intro hk; exact h (by simp [hk])
      have hrest : k ∉ rest.map Prod.fst := by
        intro hm; exact h (by simp [hm])
      simp [upsert, hk, upsert_keys_not_mem k r rest hrest]

/-- Upserting preserves distinctness of the keys. -/
theorem upsert_keys_nodup {k : String} {r : LogRecord} {l : List (String × Stats)}
    (h : (l.map Prod.fst).Nodup) : ((upsert k r l).map Prod.fst).Nodup := by
  by_cases hm : k ∈ l.map Prod.fst
  · rw [upsert_keys_mem k r l hm]; exact h
  · rw [upsert_keys_not_mem k r l hm]
    refine List.Nodup.append h (List.nodup_singleton k) ?_
    intro a ha hb
    simp only [List.mem_singleton] at hb
    subst hb
    exact hm ha

/-- A key is in an upserted list's keys iff it was there or is the new key. -/
theorem mem_upsert_keys {k x : String} {r : LogRecord} {l : List (String × Stats)} :
    x ∈ (upsert k r l).map Prod.fst ↔ x ∈ l.map Prod.fst ∨ x = k := by
  by_cases hm : k ∈ l.map Prod.fst
  · rw [upsert_keys_mem k r l hm]
    constructor
    · exact Or.inl
    · rintro (h | rfl)
      · exact h
      · exact hm
  · rw [upsert_keys_not_mem k r l hm]; simp

/-- Any property of accumulators preserved by `addLog` with records of the
batch, and established by the first record of a group, holds for every
group produced by the grouping fold. -/
theorem foldl_upsert_pres (P : Stats → Prop) :
    ∀ (logs : List LogRecord) (acc : List (String × Stats)),
      (∀ r ∈ logs, ∀ s, P s → P (addLog r s)) →
      (∀ r ∈ logs, P (addLog r Stats.empty)) →
      (∀ g ∈ acc, P g.2) →
      ∀ g ∈ logs.foldl (fun a r => upsert r.key r a) acc, P g.2
  | [], acc, _, _, hacc, g, hg => hacc g hg
  | r :: rs, acc, hstep, hinit, hacc, g, hg => by
      refine foldl_upsert_pres P rs (upsert r.key r acc)
        (fun x hx => hstep x (List.mem_cons_of_mem _ hx))
        (fun x hx => hinit x (List.mem_cons_of_mem _ hx)) ?_ g hg
      intro g2 hg2
      rcases mem_upsert r.key r acc g2 hg2 with h | ⟨s, hs, hmem⟩
      · exact hacc g2 h
      · rcases hmem with hmem | rfl
        · exact hs ▸ hstep r (List.mem_cons_self _ _) s (hacc (r.key, s) hmem)
        · exact hs ▸ hinit r (List.mem_cons_self _ _)

/-- Key-aware variant of `foldl_upsert_pres`: a property of a key and its
accumulator that is preserved by `addLog` with records OF THAT KEY, and
established by a group's first record, holds for every group — each
group's accumulator is built exclusively from the records of its own
endpoint key. -/
theorem foldl_upsert_pres_key (P : String → Stats → Prop) :
    ∀ (logs : List LogRecord) (acc : List (String × Stats)),
      (∀ r ∈ logs, ∀ s, P r.key s → P r.key (addLog r s)) →
      (∀ r ∈ logs, P r.key (addLog r Stats.empty)) →
      (∀ g ∈ acc, P g.1 g.2) →
      ∀ g ∈ logs.foldl (fun a r => upsert r.key r a) acc, P g.1 g.2
  | [], acc, _, _, hacc, g, hg => hacc g hg
  | r :: rs, acc, hstep, hinit, hacc, g, hg => by
      refine foldl_upsert_pres_key P rs (upsert r.key r acc)
        (fun x hx => hstep x (List.mem_cons_of_mem _ hx))
        (fun x hx => hinit x (List.mem_cons_of_mem _ hx)) ?_ g hg
      intro g2 hg2
      rcases mem_upsert r.key r acc g2 hg2 with h | ⟨s, hs, hmem⟩
      · exact hacc g2 h
      · rcases hmem with hmem | rfl
        · exact hs ▸ hstep r (List.mem_cons_self _ _) s (hacc (r.key, s) hmem)
        · exact hs ▸ hinit r (List.mem_cons_self _ _)

/-- Every group of a non-trivial fold satisfies the basic accumulator
invariant: at least one record, response-time list of length `count`
summing to `total_response_time`, and at most `count` errors. -/
theorem groupLogs_inv {logs : List LogRecord} :
    ∀ g ∈ groupLogs logs,
      1 ≤ g.2.count ∧ g.2.response_times.length = g.2.count ∧
        g.2.total_response_time = g.2.response_times.sum ∧ g.2.errors ≤ g.2.count := by
  intro g hg
  rw [groupLogs] at hg
  refine foldl_upsert_pres
    (fun s => 1 ≤ s.count ∧ s.response_times.length = s.count ∧
      s.total_response_time = s.response_times.sum ∧ s.errors ≤ s.count)
    logs [] (fun r _ s hs => ?_) (fun r _ => ?_) (by simp) g hg
  · obtain ⟨h1, h2, h3, h4⟩ := hs
    refine ⟨by simp [addLog], by simp [addLog, h2], by simp [addLog, h3], ?_⟩
    simp only [addLog]
    split <;> omega
  · refine ⟨by simp [addLog], by simp [addLog, Stats.empty], by simp [addLog, Stats.empty], ?_⟩
    simp only [addLog, Stats.empty]
    split <;> omega

/-- The grouping fold produces distinct keys: one group per endpoint. -/
theorem groupLogs_keys_nodup (logs : List LogRecord) :
    ((groupLogs logs).map Prod.fst).Nodup := by
  suffices h : ∀ (ls : List LogRecord) (acc : List (String × Stats)),
      (acc.map Prod.fst).Nodup →
      ((ls.foldl (fun a r => upsert r.key r a) acc).map Prod.fst).Nodup by
    exact h logs [] (by simp)
  intro ls
  induction ls with
  | nil => intro acc hacc; exact hacc
  | cons r rs ih =>
      intro acc hacc
      exact ih (upsert r.key r acc) (upsert_keys_nodup hacc)

/-- The keys of the grouping fold are exactly the keys of the records. -/
theorem mem_groupLogs_keys {logs : List LogRecord} {x : String} :
    x ∈ (groupLogs logs).map Prod.fst ↔ x ∈ logs.map LogRecord.key := by
  suffices h : ∀ (ls : List LogRecord) (acc : List (String × Stats)),
      (x ∈ (ls.foldl (fun a r => upsert r.key r a) acc).map Prod.fst ↔
        x ∈ acc.map Prod.fst ∨ x ∈ ls.map LogRecord.key) by
    simpa using h logs []
  intro ls
  induction ls with
  | nil => intro acc; simp
  | cons r rs ih =>
      intro acc
      rw [List.foldl_cons, ih (upsert r.key r acc), mem_upsert_keys]
      simp only [List.map_cons, List.mem_cons]
      tauto

/-- In a list with distinct keys, a key determines its stats. -/
theorem stats_eq_of_nodup_keys :
    ∀ (l : List (String × Stats)), (l.map Prod.fst).Nodup →
      ∀ (ep : String) (s t : Stats), (ep, s) ∈ l → (ep, t) ∈ l → s = t
  | [], _, _, _, _, hs, _ => by simp at hs
  | (k₂, s₂) :: rest, hnd, ep, s, t, hs, ht => by
      simp only [List.map_cons, List.nodup_cons] at hnd
      simp only [List.mem_cons, Prod.mk.injEq] at hs ht
      rcases hs with ⟨rfl, rfl⟩ | hs
      · rcases ht with ⟨_, rfl⟩ | ht
        · rfl
        · exact absurd (List.mem_map_of_mem Prod.fst ht) hnd.1
      · rcases ht with ⟨rfl, rfl⟩ | ht
        · exact absurd (List.mem_map_of_mem Prod.fst hs) hnd.1
        · exact stats_eq_of_nodup_keys rest hnd.2 ep s t hs ht

/-- Membership is unchanged by the stable descending sort. -/
theorem mem_sortDescBy {key : EndpointAnalysis → ℚ} {l : List EndpointAnalysis}
    {e : EndpointAnalysis} : e ∈ sortDescBy key l ↔ e ∈ l :=
  List.mem_insertionSort _

/-- Length is unchanged by the stable descending sort. -/
theorem length_sortDescBy (key : EndpointAnalysis → ℚ) (l : List EndpointAnalysis) :
    (sortDescBy key l).length = l.length :=
  List.length_insertionSort _ _

/-- The stable descending sort is sorted: keys are non-increasing. -/
theorem pairwise_sortDescBy (key : EndpointAnalysis → ℚ) (l : List EndpointAnalysis) :
    (sortDescBy key l).Pairwise (fun a b => key b ≤ key a) := by
  haveI ht : IsTotal EndpointAnalysis (fun a b => key b ≤ key a) :=
    ⟨fun a b => le_total (key b) (key a)⟩
  haveI htr : IsTrans EndpointAnalysis (fun a b => key b ≤ key a) :=
    ⟨fun _ _ _ h1 h2 => le_trans h2 h1⟩
  exact List.sorted_insertionSort _ l

/-- Rounding does not overshoot an integer bound from above. -/
theorem pyRoundInt_le {x : ℚ} {m : ℤ} (h : x ≤ (m : ℚ)) : pyRoundInt x ≤ m := by
  have hf : ⌊x⌋ ≤ m := by
    calc ⌊x⌋ ≤ ⌊(m : ℚ)⌋ := Int.floor_le_floor h
    _ = m := Int.floor_intCast m
  rw [pyRoundInt_eval]
  split_ifs with h1 h2 h3
  · exact hf
  · -- here 2⌊x⌋+1 < 2x, so ⌊x⌋ < x ≤ m, hence ⌊x⌋ + 1 ≤ m
    have hx : (⌊x⌋ : ℚ) < x := by linarith
    have hlt : ⌊x⌋ < m := by
      have hq : (⌊x⌋ : ℚ) < (m : ℚ) := lt_of_lt_of_le hx h
      exact_mod_cast hq
    omega
  · exact hf
  · -- tie branch with odd floor: 2⌊x⌋+1 ≤ 2x, so again ⌊x⌋ < x ≤ m
    have hx : (⌊x⌋ : ℚ) < x := by linarith
    have hlt : ⌊x⌋ < m := by
      have hq : (⌊x⌋ : ℚ) < (m : ℚ) := lt_of_lt_of_le hx h
      exact_mod_cast hq
    omega

/-- Rounding does not undershoot an integer bound from below. -/
theorem le_pyRoundInt {x : ℚ} {m : ℤ} (h : (m : ℚ) ≤ x) : m ≤ pyRoundInt x := by
  have hf : m ≤ ⌊x⌋ := Int.le_floor.2 h
  rw [pyRoundInt_eval]
  split_ifs <;> omega

/-- `roundTo` keeps non-negative values non-negative. -/
theorem roundTo_nonneg {d : ℕ} {x : ℚ} (h : 0 ≤ x) : 0 ≤ roundTo d x := by
  unfold roundTo
  have hp : (0:ℚ) < 10 ^ d := by positivity
  have hr : (0:ℤ) ≤ pyRoundInt (x * 10 ^ d) := by
    refine le_pyRoundInt ?_
    push_cast
    positivity
  have : (0:ℚ) ≤ (pyRoundInt (x * 10 ^ d) : ℚ) := by exact_mod_cast hr
  positivity

/-- `roundTo` keeps values at most one at most one. -/
theorem roundTo_le_one {d : ℕ} {x : ℚ} (h : x ≤ 1) : roundTo d x ≤ 1 := by
  unfold roundTo
  have hp : (0:ℚ) < 10 ^ d := by positivity
  have hr : pyRoundInt (x * 10 ^ d) ≤ 10 ^ d := by
    refine pyRoundInt_le ?_
    push_cast
    nlinarith
  have hq : (pyRoundInt (x * 10 ^ d) : ℚ) ≤ 10 ^ d := by exact_mod_cast hr
  rw [div_le_one hp]
  exact hq

/-- The ascending sort preserves length. -/
theorem length_sortAsc (l : List ℚ) : (sortAsc l).length = l.length :=
  List.length_insertionSort _ _

/-- For groups with distinct keys, the built analysis record of a group is
in a filtered-and-mapped category list iff the group passes the filter. -/
theorem mem_filterMap_analysis_iff {groups : List (String × Stats)}
    (hnd : (groups.map Prod.fst).Nodup) (p : String × Stats → Bool)
    {ep : String} {s : Stats} (hm : (ep, s) ∈ groups) :
    mkAnalysis ep s ∈ (groups.filter p).map (fun g => mkAnalysis g.1 g.2) ↔
      p (ep, s) = true := by
  constructor
  · intro h
    rcases List.mem_map.1 h with ⟨g, hgf, heq⟩
    rcases List.mem_filter.1 hgf with ⟨hgm, hp⟩
    have hep : g.1 = ep := congrArg EndpointAnalysis.endpoint heq
    have hpair : (ep, g.2) ∈ groups := by
      rw [← hep]
      simpa using hgm
    have hg2 : g.2 = s := stats_eq_of_nodup_keys groups hnd ep g.2 s hpair hm
    rw [← hep, ← hg2]
    simpa using hp
  · intro hp
    exact List.mem_map.2 ⟨(ep, s), List.mem_filter.2 ⟨hm, hp⟩, rfl⟩

/-! ## Concrete inputs used by witnesses and counterexamples -/

/-- A fully populated log record. -/
def mkRec (ep : String) (rt : ℚ) (st : ℤ) (db : ℚ) : LogRecord :=
  { endpoint := some ep, response_time_ms := some rt, status_code := some st,
    db_query_count := some db }

/-- A one-record batch: endpoint `a`, 600ms, status 200, no db queries. -/
def logsW1 : List LogRecord := [mkRec "a" 600 200 0]

/-- The accumulator that `logsW1` produces for endpoint `a`. -/
def statsW1 : Stats :=
  { count := 1, total_response_time := 600, errors := 0, db_queries := 0,
    response_times := [600] }

theorem groupLogs_logsW1 : groupLogs logsW1 = [("a", statsW1)] := by
  norm_num [groupLogs, logsW1, mkRec, upsert, addLog, Stats.empty, LogRecord.key,
    LogRecord.rt, LogRecord.status, LogRecord.db, statsW1]

/-! ## Claims -/

/-- C1: for every batch and any thresholds, a group's analysis record is in
the (untruncated) slow list iff its unrounded average response time
strictly exceeds `slow_threshold_ms`, in the high-error list iff its
unrounded error rate strictly exceeds `error_rate_threshold`, and in the
db-heavy list iff its unrounded average db query count strictly exceeds 5;
a group exactly at a threshold is in none of these lists; and with
`slow_threshold_ms = 0` every group with positive average response time is
in the slow list. -/
theorem C1_classification (c : LogAnalyzer) (logs : List LogRecord) (ep : String)
    (s : Stats) (hm : (ep, s) ∈ groupLogs logs) :
    (mkAnalysis ep s ∈ slowSorted c (groupLogs logs) ↔ c.slow_threshold_ms < s.avg) ∧
    (mkAnalysis ep s ∈ highErrorSorted c (groupLogs logs) ↔
      c.error_rate_threshold < s.errorRate) ∧
    (mkAnalysis ep s ∈ dbHeavySorted (groupLogs logs) ↔ (5:ℚ) < s.avgDb) ∧
    (s.avg = c.slow_threshold_ms → mkAnalysis ep s ∉ slowSorted c (groupLogs logs)) ∧
    (s.errorRate = c.error_rate_threshold →
      mkAnalysis ep s ∉ highErrorSorted c (groupLogs logs)) ∧
    (s.avgDb = 5 → mkAnalysis ep s ∉ dbHeavySorted (groupLogs logs)) ∧
    (c.slow_threshold_ms = 0 → 0 < s.avg →
      mkAnalysis ep s ∈ slowSorted c (groupLogs logs)) := by
  have hnd := groupLogs_keys_nodup logs
  have h1 : mkAnalysis ep s ∈ slowSorted c (groupLogs logs) ↔
      c.slow_threshold_ms < s.avg := by
    rw [slowSorted, mem_sortDescBy, slowQualifying,
      mem_filterMap_analysis_iff hnd _ hm, decide_eq_true_eq]
  have h2 : mkAnalysis ep s ∈ highErrorSorted c (groupLogs logs) ↔
      c.error_rate_threshold < s.errorRate := by
    rw [highErrorSorted, mem_sortDescBy, highErrorQualifying,
      mem_filterMap_analysis_iff hnd _ hm, decide_eq_true_eq]
  have h3 : mkAnalysis ep s ∈ dbHeavySorted (groupLogs logs) ↔ (5:ℚ) < s.avgDb := by
    rw [dbHeavySorted, mem_sortDescBy, dbHeavyQualifying,
      mem_filterMap_analysis_iff hnd _ hm, decide_eq_true_eq]
  refine ⟨h1, h2, h3, ?_, ?_, ?_, ?_⟩
  · intro he
    rw [h1, he]
    exact lt_irrefl _
  · intro he
    rw [h2, he]
    exact lt_irrefl _
  · intro he
    rw [h3, ← he]
    exact lt_irrefl _
  · intro hz hpos
    exact h1.mpr (by rw [hz]; exact hpos)

/-- Witness for C1 at a concrete input: the single 600ms record for
endpoint `a` is classified slow under the default 500ms threshold. -/
theorem C1_classification_witness :
    mkAnalysis "a" statsW1 ∈ slowSorted defaultAnalyzer (groupLogs logsW1) := by
  have hm : ("a", statsW1) ∈ groupLogs logsW1 := by
    rw [groupLogs_logsW1]
    exact List.mem_singleton_self _
  exact (C1_classification defaultAnalyzer logsW1 "a" statsW1 hm).1.mpr
    (by norm_num [statsW1, Stats.avg, defaultAnalyzer])

/-- C3: the analyze operation fails exactly on the empty batch — an empty
input produces only the error value, and every non-empty input produces a
result, the only failure mode being the empty-input error. -/
theorem C3_empty_input :
    (∀ c : LogAnalyzer, c.analyze_logs [] = .error "No logs provided") ∧
    (∀ (c : LogAnalyzer) (logs : List LogRecord), logs ≠ [] →
      ∃ res : AnalysisResult, c.analyze_logs logs = .ok res) := by
  constructor
  · intro c
    rfl
  · intro c logs h
    unfold LogAnalyzer.analyze_logs
    rw [if_neg (by simpa using h)]
    exact ⟨_, rfl⟩

/-- Witness for C3: the non-empty one-record batch yields a result. -/
theorem C3_empty_input_witness :
    ∃ res : AnalysisResult, defaultAnalyzer.analyze_logs logsW1 = .ok res :=
  C3_empty_input.2 defaultAnalyzer logsW1 (by simp [logsW1])

/-- The spec's concrete p95 scenario: ten records for one endpoint, nine at
100ms and one at 2000ms, all status 200, no db queries. -/
def tenLogs : List LogRecord :=
  [mkRec "/api/users" 100 200 0, mkRec "/api/users" 100 200 0,
   mkRec "/api/users" 100 200 0, mkRec "/api/users" 100 200 0,
   mkRec "/api/users" 100 200 0, mkRec "/api/users" 100 200 0,
   mkRec "/api/users" 100 200 0, mkRec "/api/users" 100 200 0,
   mkRec "/api/users" 100 200 0, mkRec "/api/users" 2000 200 0]

/-- The accumulator `tenLogs` produces. -/
def statsTen : Stats :=
  { count := 10, total_response_time := 2900, errors := 0, db_queries := 0,
    response_times := [100, 100, 100, 100, 100, 100, 100, 100, 100, 2000] }

theorem groupLogs_tenLogs : groupLogs tenLogs = [("/api/users", statsTen)] := by
  norm_num [groupLogs, tenLogs, mkRec, upsert, addLog, Stats.empty, LogRecord.key,
    LogRecord.rt, LogRecord.status, LogRecord.db, statsTen]

/-- C2: for every endpoint group, the p95 is the element at index
`floor(count * 0.95)` of the group's response times sorted ascending (the
index is always in bounds, so the clamp case never fires); for a group of
size 1 the p95 equals the average and the single recorded response time,
also after presentation rounding; and on the concrete ten-record input the
index is 9 and the reported p95 is 2000. -/
theorem C2_p95_selection :
    (∀ (logs : List LogRecord) (ep : String) (s : Stats), (ep, s) ∈ groupLogs logs →
      (∃ h : p95Index s.response_times.length < (sortAsc s.response_times).length,
        s.p95 = (sortAsc s.response_times).get ⟨p95Index s.response_times.length, h⟩) ∧
      (s.count = 1 → ∃ x, s.response_times = [x] ∧ s.p95 = x ∧ s.avg = x ∧
        (mkAnalysis ep s).p95_response_time_ms = (mkAnalysis ep s).avg_response_time_ms)) ∧
    p95Index 10 = 9 ∧
    (groupLogs tenLogs).map (fun g => (mkAnalysis g.1 g.2).p95_response_time_ms) =
      [2000] := by
  refine ⟨?_, by norm_num [p95Index], ?_⟩
  · intro logs ep s hm
    obtain ⟨hc, hlen, hsum, -⟩ := groupLogs_inv (ep, s) hm
    have hne : 1 ≤ s.response_times.length := by rw [hlen]; exact hc
    have hidx : p95Index s.response_times.length < s.response_times.length :=
      p95Index_lt_length hne
    have hidx2 : p95Index s.response_times.length < (sortAsc s.response_times).length := by
      rw [length_sortAsc]
      exact hidx
    refine ⟨⟨hidx2, ?_⟩, ?_⟩
    · rw [Stats.p95, List.getD_eq_getElem _ _ hidx2]
      simp
    · intro h1
      have hlen1 : s.response_times.length = 1 := by rw [hlen, h1]
      obtain ⟨x, hx⟩ := List.length_eq_one.1 hlen1
      have hp95x : s.p95 = x := by
        rw [Stats.p95, hx]
        norm_num [sortAsc, List.insertionSort, List.orderedInsert, p95Index]
      have havx : s.avg = x := by
        rw [Stats.avg, hsum, hx, h1]
        simp
      exact ⟨x, hx, hp95x, havx, by simp [mkAnalysis, hp95x, havx]⟩
  · rw [groupLogs_tenLogs]
    norm_num [mkAnalysis, statsTen, Stats.p95, sortAsc, p95Index,
      List.insertionSort, List.orderedInsert, roundTo, pyRoundInt_eval, List.getD]

/-- Witness for C2 at a concrete input: the single-record group for
endpoint `a` has p95 equal to its average. -/
theorem C2_p95_selection_witness : statsW1.p95 = statsW1.avg := by
  have hm : ("a", statsW1) ∈ groupLogs logsW1 := by
    rw [groupLogs_logsW1]
    exact List.mem_singleton_self _
  obtain ⟨x, hx, hp, ha, -⟩ :=
    (C2_p95_selection.1 logsW1 "a" statsW1 hm).2 (by norm_num [statsW1])
  rw [hp, ha]

/-- On a non-empty batch, `analyze_logs` returns the assembled result. -/
theorem analyze_logs_eq (c : LogAnalyzer) (logs : List LogRecord)
    (h : ¬ logs.isEmpty = true) :
    c.analyze_logs logs = .ok
      { total_logs_analyzed := logs.length
        unique_endpoints := (groupLogs logs).length
        slow_endpoints := (slowSorted c (groupLogs logs)).take 5
        high_error_endpoints := (highErrorSorted c (groupLogs logs)).take 5
        db_heavy_endpoints := (dbHeavySorted (groupLogs logs)).take 5
        summary :=
          { slow_endpoints_count := (slowSorted c (groupLogs logs)).length
            high_error_endpoints_count := (highErrorSorted c (groupLogs logs)).length
            db_heavy_endpoints_count := (dbHeavySorted (groupLogs logs)).length } } := by
  unfold LogAnalyzer.analyze_logs
  rw [if_neg h]

/-- A successful analysis determines the result record. -/
theorem analyze_logs_ok {c : LogAnalyzer} {logs : List LogRecord} {res : AnalysisResult}
    (hres : c.analyze_logs logs = .ok res) :
    res =
      { total_logs_analyzed := logs.length
        unique_endpoints := (groupLogs logs).length
        slow_endpoints := (slowSorted c (groupLogs logs)).take 5
        high_error_endpoints := (highErrorSorted c (groupLogs logs)).take 5
        db_heavy_endpoints := (dbHeavySorted (groupLogs logs)).take 5
        summary :=
          { slow_endpoints_count := (slowSorted c (groupLogs logs)).length
            high_error_endpoints_count := (highErrorSorted c (groupLogs logs)).length
            db_heavy_endpoints_count := (dbHeavySorted (groupLogs logs)).length } } := by
  unfold LogAnalyzer.analyze_logs at hres
  by_cases hemp : logs.isEmpty = true
  · rw [if_pos hemp] at hres
    simp at hres
  · rw [if_neg hemp] at hres
    simp only [Except.ok.injEq] at hres
    exact hres.symm

/-- The slow list of an analysis outcome (empty on the error outcome). -/
def slowListOf (res : Except String AnalysisResult) : List EndpointAnalysis :=
  match res with
  | .ok r => r.slow_endpoints
  | .error _ => []

/-- The high-error list of an analysis outcome. -/
def highErrorListOf (res : Except String AnalysisResult) : List EndpointAnalysis :=
  match res with
  | .ok r => r.high_error_endpoints
  | .error _ => []

/-- The unrounded average response time of the group backing an entry of a
result list, recovered by looking the entry's endpoint up in the groups. -/
def unroundedAvgOf (logs : List LogRecord) (e : EndpointAnalysis) : ℚ :=
  (((groupLogs logs).lookup e.endpoint).map Stats.avg).getD 0

/-- Two endpoints whose averages differ only in the third decimal: both
round to the same 2-decimal sort key 1000.0. -/
def cexLogs4 : List LogRecord :=
  [mkRec "a" (1000 + 1/1000) 200 0, mkRec "b" (1000 + 4/1000) 200 0]

/-- The accumulator for endpoint `a` of `cexLogs4`. -/
def statsA4 : Stats :=
  { count := 1, total_response_time := 1000 + 1/1000, errors := 0,
    db_queries := 0, response_times := [1000 + 1/1000] }

/-- The accumulator for endpoint `b` of `cexLogs4`. -/
def statsB4 : Stats :=
  { count := 1, total_response_time := 1000 + 4/1000, errors := 0,
    db_queries := 0, response_times := [1000 + 4/1000] }

theorem groupLogs_cexLogs4 : groupLogs cexLogs4 = [("a", statsA4), ("b", statsB4)] := by
  norm_num [groupLogs, cexLogs4, mkRec, upsert, addLog, Stats.empty, LogRecord.key,
    LogRecord.rt, LogRecord.status, LogRecord.db, statsA4, statsB4]
  all_goals decide

theorem analyze_cexLogs4 :
    defaultAnalyzer.analyze_logs cexLogs4 = .ok
      { total_logs_analyzed := 2
        unique_endpoints := 2
        slow_endpoints := [mkAnalysis "a" statsA4, mkAnalysis "b" statsB4]
        high_error_endpoints := []
        db_heavy_endpoints := []
        summary :=
          { slow_endpoints_count := 2, high_error_endpoints_count := 0,
            db_heavy_endpoints_count := 0 } } := by
  rw [analyze_logs_eq _ _ (by simp [cexLogs4]), groupLogs_cexLogs4]
  norm_num [slowSorted, slowQualifying, highErrorSorted, highErrorQualifying,
    dbHeavySorted, dbHeavyQualifying, sortDescBy, defaultAnalyzer, statsA4, statsB4,
    Stats.avg, Stats.errorRate, Stats.avgDb, List.insertionSort, List.orderedInsert,
    List.filter, decide_eq_true_eq, cexLogs4, mkAnalysis, roundTo, pyRoundInt_eval,
    Stats.p95, sortAsc, p95Index, List.getD]

/-- Counterexample to C4 as stated: on `cexLogs4` the returned slow list is
`[a, b]` (both rounded sort keys are 1000.0 and the stable sort keeps
first-seen order), but the unrounded averages are 1000.001 < 1000.004, so
the list is NOT sorted descending by the unrounded metric — the source
sorts by the rounded dict entry `avg_response_time_ms` (line 86). -/
theorem unroundedAvgOf_cexA :
    unroundedAvgOf cexLogs4 (mkAnalysis "a" statsA4) = 1000 + 1/1000 := by
  rw [unroundedAvgOf, groupLogs_cexLogs4]
  simp [List.lookup_cons, mkAnalysis, statsA4, Stats.avg]

theorem unroundedAvgOf_cexB :
    unroundedAvgOf cexLogs4 (mkAnalysis "b" statsB4) = 1000 + 4/1000 := by
  rw [unroundedAvgOf, groupLogs_cexLogs4]
  simp [List.lookup_cons, mkAnalysis, statsB4, Stats.avg]

theorem C4_ranking_counterexample :
    (slowListOf (defaultAnalyzer.analyze_logs cexLogs4)).map
        (fun e => unroundedAvgOf cexLogs4 e) = [1000 + 1/1000, 1000 + 4/1000] ∧
    ¬ (slowListOf (defaultAnalyzer.analyze_logs cexLogs4)).Pairwise
        (fun x y => unroundedAvgOf cexLogs4 y ≤ unroundedAvgOf cexLogs4 x) := by
  rw [analyze_cexLogs4]
  norm_num [slowListOf, List.pairwise_cons, List.forall_mem_cons,
    unroundedAvgOf_cexA, unroundedAvgOf_cexB]

/-- C4 (amended): each of the three returned lists is sorted descending by
its ROUNDED triggering field — `avg_response_time_ms`, `error_rate`,
`avg_db_queries`, the sort keys the source reads at lines 86-88 — has at
most 5 entries, and ties keep first-seen group order (the sort is stable,
hence deterministic). -/
theorem C4_ranking_amended (c : LogAnalyzer) (logs : List LogRecord)
    (res : AnalysisResult) (hres : c.analyze_logs logs = .ok res) :
    res.slow_endpoints.Pairwise
      (fun x y => y.avg_response_time_ms ≤ x.avg_response_time_ms) ∧
    res.high_error_endpoints.Pairwise (fun x y => y.error_rate ≤ x.error_rate) ∧
    res.db_heavy_endpoints.Pairwise
      (fun x y => y.avg_db_queries ≤ x.avg_db_queries) ∧
    res.slow_endpoints.length ≤ 5 ∧
    res.high_error_endpoints.length ≤ 5 ∧
    res.db_heavy_endpoints.length ≤ 5 := by
  obtain rfl := analyze_logs_ok hres
  refine ⟨?_, ?_, ?_, ?_, ?_, ?_⟩
  · exact ((pairwise_sortDescBy _ _).sublist (List.take_sublist _ _))
  · exact ((pairwise_sortDescBy _ _).sublist (List.take_sublist _ _))
  · exact ((pairwise_sortDescBy _ _).sublist (List.take_sublist _ _))
  · exact List.length_take_le _ _
  · exact List.length_take_le _ _
  · exact List.length_take_le _ _

/-- The analysis result of the `logsW1` batch. -/
def resW1 : AnalysisResult :=
  { total_logs_analyzed := 1
    unique_endpoints := 1
    slow_endpoints := [mkAnalysis "a" statsW1]
    high_error_endpoints := []
    db_heavy_endpoints := []
    summary :=
      { slow_endpoints_count := 1, high_error_endpoints_count := 0,
        db_heavy_endpoints_count := 0 } }

theorem analyze_logsW1 : defaultAnalyzer.analyze_logs logsW1 = .ok resW1 := by
  rw [analyze_logs_eq _ _ (by simp [logsW1]), groupLogs_logsW1]
  norm_num [slowSorted, slowQualifying, highErrorSorted, highErrorQualifying,
    dbHeavySorted, dbHeavyQualifying, sortDescBy, defaultAnalyzer, statsW1,
    Stats.avg, Stats.errorRate, Stats.avgDb, List.insertionSort,
    List.orderedInsert, List.filter, decide_eq_true_eq, resW1, logsW1]

/-- Witness for the amended C4 at a concrete input. -/
theorem C4_ranking_amended_witness :
    resW1.slow_endpoints.Pairwise
      (fun x y => y.avg_response_time_ms ≤ x.avg_response_time_ms) ∧
    resW1.slow_endpoints.length ≤ 5 := by
  have h := C4_ranking_amended defaultAnalyzer logsW1 resW1 analyze_logsW1
  exact ⟨h.1, h.2.2.2.1⟩

/-- C5: each summary count equals the number of ALL qualifying groups of
its category, before truncation to the top 5, so each count is at least
the length of the returned (truncated) list. -/
theorem C5_summary_counts (c : LogAnalyzer) (logs : List LogRecord)
    (res : AnalysisResult) (hres : c.analyze_logs logs = .ok res) :
    res.summary.slow_endpoints_count =
      ((groupLogs logs).filter (fun g => c.slow_threshold_ms < g.2.avg)).length ∧
    res.summary.high_error_endpoints_count =
      ((groupLogs logs).filter
        (fun g => c.error_rate_threshold < g.2.errorRate)).length ∧
    res.summary.db_heavy_endpoints_count =
      ((groupLogs logs).filter (fun g => (5:ℚ) < g.2.avgDb)).length ∧
    res.slow_endpoints.length ≤ res.summary.slow_endpoints_count ∧
    res.high_error_endpoints.length ≤ res.summary.high_error_endpoints_count ∧
    res.db_heavy_endpoints.length ≤ res.summary.db_heavy_endpoints_count := by
  obtain rfl := analyze_logs_ok hres
  refine ⟨?_, ?_, ?_, ?_, ?_, ?_⟩
  · rw [show (slowSorted c (groupLogs logs)).length =
        ((groupLogs logs).filter (fun g => c.slow_threshold_ms < g.2.avg)).length from
      by rw [slowSorted, length_sortDescBy, slowQualifying, List.length_map]]
  · rw [show (highErrorSorted c (groupLogs logs)).length =
        ((groupLogs logs).filter
          (fun g => c.error_rate_threshold < g.2.errorRate)).length from
      by rw [highErrorSorted, length_sortDescBy, highErrorQualifying, List.length_map]]
  · rw [show (dbHeavySorted (groupLogs logs)).length =
        ((groupLogs logs).filter (fun g => (5:ℚ) < g.2.avgDb)).length from
      by rw [dbHeavySorted, length_sortDescBy, dbHeavyQualifying, List.length_map]]
  · calc ((slowSorted c (groupLogs logs)).take 5).length ≤
        (slowSorted c (groupLogs logs)).length := by
          rw [List.length_take]; exact min_le_right _ _
    _ = _ := rfl
  · calc ((highErrorSorted c (groupLogs logs)).take 5).length ≤
        (highErrorSorted c (groupLogs logs)).length := by
          rw [List.length_take]; exact min_le_right _ _
    _ = _ := rfl
  · calc ((dbHeavySorted (groupLogs logs)).take 5).length ≤
        (dbHeavySorted (groupLogs logs)).length := by
          rw [List.length_take]; exact min_le_right _ _
    _ = _ := rfl

/-- Witness for C5 at a concrete input. -/
theorem C5_summary_counts_witness :
    resW1.summary.slow_endpoints_count =
      ((groupLogs logsW1).filter
        (fun g => defaultAnalyzer.slow_threshold_ms < g.2.avg)).length ∧
    resW1.slow_endpoints.length ≤ resW1.summary.slow_endpoints_count := by
  have h := C5_summary_counts defaultAnalyzer logsW1 resW1 analyze_logsW1
  exact ⟨h.1, h.2.2.2.1⟩

/-- Eight records for endpoint `e`, exactly one with an error status: the
error rate is 1/8 = 0.125, a value with three decimal places. -/
def c6Logs : List LogRecord :=
  [mkRec "e" 100 500 0, mkRec "e" 100 200 0, mkRec "e" 100 200 0,
   mkRec "e" 100 200 0, mkRec "e" 100 200 0, mkRec "e" 100 200 0,
   mkRec "e" 100 200 0, mkRec "e" 100 200 0]

/-- The accumulator `c6Logs` produces. -/
def statsE : Stats :=
  { count := 8, total_response_time := 800, errors := 1, db_queries := 0,
    response_times := [100, 100, 100, 100, 100, 100, 100, 100] }

theorem groupLogs_c6Logs : groupLogs c6Logs = [("e", statsE)] := by
  norm_num [groupLogs, c6Logs, mkRec, upsert, addLog, Stats.empty, LogRecord.key,
    LogRecord.rt, LogRecord.status, LogRecord.db, statsE]

theorem analyze_c6Logs :
    defaultAnalyzer.analyze_logs c6Logs = .ok
      { total_logs_analyzed := 8
        unique_endpoints := 1
        slow_endpoints := []
        high_error_endpoints := [mkAnalysis "e" statsE]
        db_heavy_endpoints := []
        summary :=
          { slow_endpoints_count := 0, high_error_endpoints_count := 1,
            db_heavy_endpoints_count := 0 } } := by
  rw [analyze_logs_eq _ _ (by simp [c6Logs]), groupLogs_c6Logs]
  norm_num [slowSorted, slowQualifying, highErrorSorted, highErrorQualifying,
    dbHeavySorted, dbHeavyQualifying, sortDescBy, defaultAnalyzer, statsE,
    Stats.avg, Stats.errorRate, Stats.avgDb, List.insertionSort,
    List.orderedInsert, List.filter, decide_eq_true_eq, c6Logs]

/-- Counterexample to C6 as stated: on `c6Logs` the reported `error_rate`
is 0.125, which is not a 2-decimal value — the source rounds `error_rate`
to 3 decimal places (line 70), not 2 like the other derived fields. -/
theorem C6_rounding_counterexample :
    (highErrorListOf (defaultAnalyzer.analyze_logs c6Logs)).map
        (fun e => e.error_rate) = [1/8] ∧
    roundTo 2 ((1:ℚ)/8) ≠ (1:ℚ)/8 := by
  rw [analyze_c6Logs]
  constructor
  · norm_num [highErrorListOf, mkAnalysis, statsE, Stats.errorRate, roundTo,
      pyRoundInt_eval]
  · norm_num [roundTo, pyRoundInt_eval]

/-- An entry of a filtered-and-mapped category list comes from a group
whose key is the entry's endpoint and that passes the filter. -/
theorem mem_category_entry {groups : List (String × Stats)}
    {p : String × Stats → Bool} {e : EndpointAnalysis}
    (he : e ∈ (groups.filter p).map (fun g => mkAnalysis g.1 g.2)) :
    ∃ s, (e.endpoint, s) ∈ groups ∧ e = mkAnalysis e.endpoint s ∧
      p (e.endpoint, s) = true := by
  rcases List.mem_map.1 he with ⟨g, hgf, heq⟩
  rcases List.mem_filter.1 hgf with ⟨hgm, hp⟩
  subst heq
  refine ⟨g.2, ?_, rfl, ?_⟩
  · show (g.1, g.2) ∈ groups
    simpa using hgm
  · simpa using hp

/-- C6 (amended): every entry of each returned list carries its group's
average response time, p95 and average db query count rounded to 2 decimal
places, but its error rate rounded to 3 decimal places; the rounding is
presentation-only — membership was decided on the unrounded metric. -/
theorem C6_rounding_amended (c : LogAnalyzer) (logs : List LogRecord)
    (res : AnalysisResult) (hres : c.analyze_logs logs = .ok res) :
    (∀ e ∈ res.slow_endpoints, ∃ s : Stats, (e.endpoint, s) ∈ groupLogs logs ∧
      e.avg_response_time_ms = roundTo 2 s.avg ∧
      e.p95_response_time_ms = roundTo 2 s.p95 ∧
      e.error_rate = roundTo 3 s.errorRate ∧
      e.avg_db_queries = roundTo 2 s.avgDb ∧
      c.slow_threshold_ms < s.avg) ∧
    (∀ e ∈ res.high_error_endpoints, ∃ s : Stats, (e.endpoint, s) ∈ groupLogs logs ∧
      e.avg_response_time_ms = roundTo 2 s.avg ∧
      e.p95_response_time_ms = roundTo 2 s.p95 ∧
      e.error_rate = roundTo 3 s.errorRate ∧
      e.avg_db_queries = roundTo 2 s.avgDb ∧
      c.error_rate_threshold < s.errorRate) ∧
    (∀ e ∈ res.db_heavy_endpoints, ∃ s : Stats, (e.endpoint, s) ∈ groupLogs logs ∧
      e.avg_response_time_ms = roundTo 2 s.avg ∧
      e.p95_response_time_ms = roundTo 2 s.p95 ∧
      e.error_rate = roundTo 3 s.errorRate ∧
      e.avg_db_queries = roundTo 2 s.avgDb ∧
      (5:ℚ) < s.avgDb) := by
  obtain rfl := analyze_logs_ok hres
  refine ⟨?_, ?_, ?_⟩
  · intro e he
    have he2 : e ∈ slowQualifying c (groupLogs logs) :=
      mem_sortDescBy.1 (List.take_subset _ _ he)
    rw [slowQualifying] at he2
    obtain ⟨s, hmem, heq, hp⟩ := mem_category_entry he2
    exact ⟨s, hmem, by rw [heq]; rfl, by rw [heq]; rfl, by rw [heq]; rfl,
      by rw [heq]; rfl, of_decide_eq_true hp⟩
  · intro e he
    have he2 : e ∈ highErrorQualifying c (groupLogs logs) :=
      mem_sortDescBy.1 (List.take_subset _ _ he)
    rw [highErrorQualifying] at he2
    obtain ⟨s, hmem, heq, hp⟩ := mem_category_entry he2
    exact ⟨s, hmem, by rw [heq]; rfl, by rw [heq]; rfl, by rw [heq]; rfl,
      by rw [heq]; rfl, of_decide_eq_true hp⟩
  · intro e he
    have he2 : e ∈ dbHeavyQualifying (groupLogs logs) :=
      mem_sortDescBy.1 (List.take_subset _ _ he)
    rw [dbHeavyQualifying] at he2
    obtain ⟨s, hmem, heq, hp⟩ := mem_category_entry he2
    exact ⟨s, hmem, by rw [heq]; rfl, by rw [heq]; rfl, by rw [heq]; rfl,
      by rw [heq]; rfl, of_decide_eq_true hp⟩

/-- Witness for the amended C6 at a concrete input. -/
theorem C6_rounding_amended_witness :
    ∃ s : Stats, ((mkAnalysis "a" statsW1).endpoint, s) ∈ groupLogs logsW1 ∧
      (mkAnalysis "a" statsW1).error_rate = roundTo 3 s.errorRate ∧
      (mkAnalysis "a" statsW1).avg_response_time_ms = roundTo 2 s.avg := by
  obtain ⟨s, hmem, havg, -, herr, -, -⟩ :=
    (C6_rounding_amended defaultAnalyzer logsW1 resW1 analyze_logsW1).1
      (mkAnalysis "a" statsW1) (by simp [resW1])
  exact ⟨s, hmem, herr, havg⟩

/-- C7: issue extraction renders at most the first 3 entries of each list,
slow first, then high-error, then db-heavy, hence at most 9 strings;
on a result with three empty lists it returns the empty list; being a
total function it never fails. -/
theorem C7_issue_extraction (res : AnalysisResult) :
    LogAnalyzer.get_critical_issues res =
      (res.slow_endpoints.take 3).map slowIssueStr ++
        (res.high_error_endpoints.take 3).map highErrorIssueStr ++
        (res.db_heavy_endpoints.take 3).map dbHeavyIssueStr ∧
    (LogAnalyzer.get_critical_issues res).length =
      min 3 res.slow_endpoints.length + min 3 res.high_error_endpoints.length +
        min 3 res.db_heavy_endpoints.length ∧
    (LogAnalyzer.get_critical_issues res).length ≤ 9 ∧
    (res.slow_endpoints = [] → res.high_error_endpoints = [] →
      res.db_heavy_endpoints = [] → LogAnalyzer.get_critical_issues res = []) := by
  have hlen : (LogAnalyzer.get_critical_issues res).length =
      min 3 res.slow_endpoints.length + min 3 res.high_error_endpoints.length +
        min 3 res.db_heavy_endpoints.length := by
    simp only [LogAnalyzer.get_critical_issues, List.nil_append, List.length_append,
      List.length_take, List.length_map]
  refine ⟨rfl, hlen, ?_, ?_⟩
  · rw [hlen]
    have h1 := min_le_left 3 res.slow_endpoints.length
    have h2 := min_le_left 3 res.high_error_endpoints.length
    have h3 := min_le_left 3 res.db_heavy_endpoints.length
    omega
  · intro h1 h2 h3
    simp [LogAnalyzer.get_critical_issues, h1, h2, h3]

/-- A result in which no endpoint qualifies for any category. -/
def resEmptyLists : AnalysisResult :=
  { total_logs_analyzed := 1
    unique_endpoints := 1
    slow_endpoints := []
    high_error_endpoints := []
    db_heavy_endpoints := []
    summary :=
      { slow_endpoints_count := 0, high_error_endpoints_count := 0,
        db_heavy_endpoints_count := 0 } }

/-- Witness for C7 at a concrete input: empty lists yield no issues. -/
theorem C7_issue_extraction_witness :
    LogAnalyzer.get_critical_issues resEmptyLists = [] :=
  (C7_issue_extraction resEmptyLists).2.2.2 rfl rfl rfl

/-- C8: the result counts the records and the distinct endpoint keys, a
record without an endpoint contributing the literal key `unknown`. -/
theorem C8_totals (c : LogAnalyzer) (logs : List LogRecord)
    (res : AnalysisResult) (hres : c.analyze_logs logs = .ok res) :
    res.total_logs_analyzed = logs.length ∧
    res.unique_endpoints = (logs.map LogRecord.key).toFinset.card ∧
    (∀ r : LogRecord, r.endpoint = none → r.key = "unknown") := by
  obtain rfl := analyze_logs_ok hres
  refine ⟨rfl, ?_, ?_⟩
  · show (groupLogs logs).length = _
    have hnd := groupLogs_keys_nodup logs
    have hsets : ((groupLogs logs).map Prod.fst).toFinset =
        (logs.map LogRecord.key).toFinset := by
      ext x
      rw [List.mem_toFinset, List.mem_toFinset]
      exact mem_groupLogs_keys
    calc (groupLogs logs).length
        = ((groupLogs logs).map Prod.fst).length := (List.length_map _ _).symm
      _ = ((groupLogs logs).map Prod.fst).toFinset.card :=
          (List.toFinset_card_of_nodup hnd).symm
      _ = (logs.map LogRecord.key).toFinset.card := by rw [hsets]
  · intro r h
    simp [LogRecord.key, h]

/-- A record whose endpoint field is absent. -/
def recNone : LogRecord :=
  { endpoint := none, response_time_ms := some 5, status_code := some 200,
    db_query_count := some 0 }

/-- Witness for C8 at a concrete input. -/
theorem C8_totals_witness :
    resW1.total_logs_analyzed = logsW1.length ∧
    resW1.unique_endpoints = (logsW1.map LogRecord.key).toFinset.card ∧
    LogRecord.key recNone = "unknown" := by
  have h := C8_totals defaultAnalyzer logsW1 resW1 analyze_logsW1
  exact ⟨h.1, h.2.1, h.2.2 recNone rfl⟩

/-- C9: with non-negative db query counts, every group has at least one
record, an error rate within [0, 1] and a non-negative average db query
count — both before and after presentation rounding; a group all of whose
OWN records (the batch records carrying its key) have status at least 400
has error rate exactly 1, also in a mixed batch with healthy endpoints
alongside; the divisor `count` is never zero. -/
theorem C9_rate_bounds (logs : List LogRecord) (hdb : ∀ r ∈ logs, 0 ≤ r.db) :
    ∀ g ∈ groupLogs logs,
      1 ≤ g.2.count ∧ 0 ≤ g.2.errorRate ∧ g.2.errorRate ≤ 1 ∧ 0 ≤ g.2.avgDb ∧
      0 ≤ (mkAnalysis g.1 g.2).error_rate ∧ (mkAnalysis g.1 g.2).error_rate ≤ 1 ∧
      0 ≤ (mkAnalysis g.1 g.2).avg_db_queries ∧
      ((∀ r ∈ logs, r.key = g.1 → 400 ≤ r.status) → g.2.errorRate = 1) := by
  intro g hg
  obtain ⟨hc, -, -, herr⟩ := groupLogs_inv g hg
  have hcQ : (0:ℚ) < (g.2.count : ℚ) := by exact_mod_cast hc
  have her0 : 0 ≤ g.2.errorRate := by
    rw [Stats.errorRate]
    positivity
  have her1 : g.2.errorRate ≤ 1 := by
    rw [Stats.errorRate, div_le_one hcQ]
    exact_mod_cast herr
  have hdbq : 0 ≤ g.2.db_queries := by
    rw [groupLogs] at hg
    refine foldl_upsert_pres (fun s => 0 ≤ s.db_queries) logs [] ?_ ?_ (by simp) g hg
    · intro r hr s hs
      exact add_nonneg hs (hdb r hr)
    · intro r hr
      simpa [addLog, Stats.empty] using hdb r hr
  have hadb : 0 ≤ g.2.avgDb := by
    rw [Stats.avgDb]
    exact div_nonneg hdbq hcQ.le
  refine ⟨hc, her0, her1, hadb, roundTo_nonneg her0, roundTo_le_one her1,
    roundTo_nonneg hadb, ?_⟩
  intro hall
  have hec : g.2.errors = g.2.count := by
    rw [groupLogs] at hg
    refine foldl_upsert_pres_key
      (fun k s => (∀ r ∈ logs, r.key = k → 400 ≤ r.status) → s.errors = s.count)
      logs [] ?_ ?_ (by simp) g hg hall
    · intro r hr s hs h400
      simp [addLog, if_pos (h400 r hr rfl), hs h400]
    · intro r hr h400
      simp [addLog, Stats.empty, if_pos (h400 r hr rfl)]
  rw [Stats.errorRate, hec, div_self (ne_of_gt hcQ)]

/-- A mixed batch: every record of endpoint `x` has an error status, while
endpoint `y` is healthy. -/
def logsMix : List LogRecord := [mkRec "x" 10 500 0, mkRec "y" 10 200 0]

/-- The accumulator `logsMix` produces for the all-error endpoint `x`. -/
def statsMixX : Stats :=
  { count := 1, total_response_time := 10, errors := 1, db_queries := 0,
    response_times := [10] }

/-- The accumulator `logsMix` produces for the healthy endpoint `y`. -/
def statsMixY : Stats :=
  { count := 1, total_response_time := 10, errors := 0, db_queries := 0,
    response_times := [10] }

theorem groupLogs_logsMix :
    groupLogs logsMix = [("x", statsMixX), ("y", statsMixY)] := by
  norm_num [groupLogs, logsMix, mkRec, upsert, addLog, Stats.empty, LogRecord.key,
    LogRecord.rt, LogRecord.status, LogRecord.db, statsMixX, statsMixY]
  all_goals decide

/-- Witness for C9 at concrete inputs, including an all-error endpoint
inside a mixed batch that also holds a healthy endpoint. -/
theorem C9_rate_bounds_witness :
    (0 ≤ statsW1.errorRate ∧ statsW1.errorRate ≤ 1) ∧ statsMixX.errorRate = 1 := by
  have h1 := C9_rate_bounds logsW1 (by norm_num [logsW1, mkRec, LogRecord.db])
    ("a", statsW1) (by rw [groupLogs_logsW1]; exact List.mem_singleton_self _)
  have h2 := C9_rate_bounds logsMix (by norm_num [logsMix, mkRec, LogRecord.db])
    ("x", statsMixX) (by rw [groupLogs_logsMix]; simp)
  refine ⟨⟨h1.2.1, h1.2.2.1⟩, h2.2.2.2.2.2.2.2 ?_⟩
  intro r hr hkey
  simp only [logsMix, List.mem_cons, List.not_mem_nil, or_false] at hr
  rcases hr with rfl | rfl
  · norm_num [mkRec, LogRecord.status]
  · exact absurd hkey (by decide)

/-- C10: records with absent optional fields are silently defaulted, never
rejected: a missing `response_time_ms` counts as 0 (and appends 0 to the
group's time list), a missing `status_code` counts as 200 and is not an
error, a missing `db_query_count` adds 0 queries; the record still counts
toward the group size, and a defaulted response time strictly lowers a
previously positive average. -/
theorem C10_default_fields (s : Stats) (r : LogRecord) :
    (addLog r s).count = s.count + 1 ∧
    (r.response_time_ms = none →
      (addLog r s).total_response_time = s.total_response_time ∧
      (addLog r s).response_times = s.response_times ++ [0]) ∧
    (r.status_code = none → r.status = 200 ∧ (addLog r s).errors = s.errors) ∧
    (r.db_query_count = none → (addLog r s).db_queries = s.db_queries) ∧
    (r.response_time_ms = none → 1 ≤ s.count → 0 < s.total_response_time →
      (addLog r s).avg < s.avg) := by
  refine ⟨rfl, fun h => ⟨?_, ?_⟩, fun h => ⟨by simp [LogRecord.status, h], ?_⟩,
    fun h => ?_, fun h hc hpos => ?_⟩
  · simp [addLog, LogRecord.rt, h]
  · simp [addLog, LogRecord.rt, h]
  · norm_num [addLog, LogRecord.status, h]
  · simp [addLog, LogRecord.db, h]
  · have hrt : r.rt = 0 := by simp [LogRecord.rt, h]
    have hcQ : (0:ℚ) < (s.count : ℚ) := by exact_mod_cast hc
    simp only [Stats.avg, addLog, hrt, add_zero]
    push_cast
    have h1 : (0:ℚ) < (s.count : ℚ) + 1 := by positivity
    rw [div_lt_div_iff₀ h1 hcQ]
    nlinarith [hpos]

/-- A record with every optional numeric field absent. -/
def recAllNone : LogRecord :=
  { endpoint := some "m", response_time_ms := none, status_code := none,
    db_query_count := none }

/-- Witness for C10 at a concrete input. -/
theorem C10_default_fields_witness :
    (addLog recAllNone statsW1).count = statsW1.count + 1 ∧
    (addLog recAllNone statsW1).errors = statsW1.errors ∧
    (addLog recAllNone statsW1).db_queries = statsW1.db_queries ∧
    (addLog recAllNone statsW1).avg < statsW1.avg := by
  have h := C10_default_fields statsW1 recAllNone
  exact ⟨h.1, (h.2.2.1 rfl).2, h.2.2.2.1 rfl,
    h.2.2.2.2 rfl (by norm_num [statsW1]) (by norm_num [statsW1])⟩

end APIPBA
